import Mathlib

/-
Verification of the apostrophe module's push (browser-call / browser-data
code generation) and templates (nunjucks environment cache, partial data
merging) components, as a shallow embedding of src/lib/push.js and
src/lib/templates.js.
-/

set_option linter.unusedVariables false

namespace Apos

/-- JavaScript values as handled by the push module: `undefined`, `null`,
booleans, numbers (restricted here to integer values, which covers every
value the module's documentation and callers serialize), strings, arrays,
and plain objects with ordered string-keyed fields (we assume keys are not
integer-like, so JS preserves insertion order). -/
inductive JVal where
  | undef
  | null
  | bool (b : Bool)
  | num (n : Int)
  | str (s : String)
  | arr (elems : List JVal)
  | obj (fields : List (String × JVal))

/-- Lowercase hexadecimal digit character, as produced by JSON.stringify
for control-character escapes. -/
def hexDigit (n : Nat) : Char :=
  if n < 10 then Char.ofNat (48 + n) else Char.ofNat (87 + n)

/-- Escaping of one character inside a JSON string literal, following
JSON.stringify: quote and backslash are escaped, the named control
characters get their short escapes, any other control character gets a
lowercase unicode escape, and everything else is copied verbatim. -/
def escapeChar (c : Char) : String :=
  if c = '"' then "\\\""
  else if c = '\\' then "\\\\"
  else if c = '\x08' then "\\b"
  else if c = '\x09' then "\\t"
  else if c = '\x0a' then "\\n"
  else if c = '\x0c' then "\\f"
  else if c = '\x0d' then "\\r"
  else if c.toNat < 32 then
    "\\u00" ++ String.singleton (hexDigit (c.toNat / 16)) ++
      String.singleton (hexDigit (c.toNat % 16))
  else String.singleton c

/-- JSON string literal for `s`: double quotes around the escaped characters. -/
def jsonQuote (s : String) : String :=
  "\"" ++ String.join (s.data.map escapeChar) ++ "\""

mutual

/-- JSON.stringify on a JVal. Returns `none` exactly when JS
JSON.stringify returns the value `undefined` (namely on the input
`undefined`); inside arrays an `undefined` element serializes as `null`,
and inside objects a field whose value is `undefined` is omitted. -/
def jsonText : JVal → Option String
  | .undef => none
  | .null => some "null"
  | .bool b => some (if b then "true" else "false")
  | .num n => some (toString n)
  | .str s => some (jsonQuote s)
  | .arr xs => some ("[" ++ String.intercalate "," (jsonArrElems xs) ++ "]")
  | .obj fs => some ("\x7b" ++ String.intercalate "," (jsonObjFields fs) ++ "\x7d")
termination_by structural v => v

/-- Serialized elements of a JSON array (undefined becomes null). -/
def jsonArrElems : List JVal → List String
  | [] => []
  | x :: xs => ((jsonText x).getD "null") :: jsonArrElems xs
termination_by structural l => l

/-- Serialized `key:value` members of a JSON object (undefined-valued
fields are skipped). -/
def jsonObjFields : List (String × JVal) → List String
  | [] => []
  | (k, v) :: fs =>
    match jsonText v with
    | some t => (jsonQuote k ++ ":" ++ t) :: jsonObjFields fs
    | none => jsonObjFields fs
termination_by structural l => l

end

/-- Result of JS string concatenation `code += JSON.stringify(v)`: when
stringify yields the value `undefined`, concatenation coerces it to the
text `undefined`. -/
def jsonConcatText (v : JVal) : String :=
  (jsonText v).getD "undefined"

mutual

/-- JS ToString coercion, as applied by string concatenation `code += v`:
primitives print their usual textual form, arrays print as their
comma-join (with null and undefined elements printing as empty), plain
objects print as `[object Object]`. -/
def jToString : JVal → String
  | .undef => "undefined"
  | .null => "null"
  | .bool b => if b then "true" else "false"
  | .num n => toString n
  | .str s => s
  | .arr xs => String.intercalate "," (jArrStrings xs)
  | .obj _ => "[object Object]"
termination_by structural v => v

/-- Element strings of Array.prototype.join: null and undefined become the
empty string, everything else uses ToString. -/
def jArrStrings : List JVal → List String
  | [] => []
  | .undef :: xs => "" :: jArrStrings xs
  | .null :: xs => "" :: jArrStrings xs
  | x :: xs => jToString x :: jArrStrings xs
termination_by structural l => l

end

/-- Registration held in a call list, as built by `req.pushCall` and
`pushGlobalCallWhen`: the pattern string and the remaining arguments
(push.js lines 47-58 and 76-83). -/
structure Call where
  pattern : String
  arguments : List JVal

/-- Body of the compile loop of `_getCalls` (push.js lines 104-125).
The source repeatedly searches for the next `?` or `@` at or after the
cursor `from`, copies the text before it verbatim, substitutes
`JSON.stringify(call.arguments[n++])` for `?` and the concatenation of
`call.arguments[n++]` for `@`, and copies the tail verbatim when no
placeholder remains; this is the same function as a left-to-right scan
over the pattern characters keeping the argument index `n`. Indexing past
the end of `arguments` yields JS `undefined`, hence `JVal.undef` here. -/
def compileFrom : List Char → List JVal → Nat → String
  | [], _, _ => ""
  | c :: rest, arguments, n =>
    if c = '?' then jsonConcatText (arguments.getD n JVal.undef) ++ compileFrom rest arguments (n + 1)
    else if c = '@' then jToString (arguments.getD n JVal.undef) ++ compileFrom rest arguments (n + 1)
    else String.singleton c ++ compileFrom rest arguments n

/-- Compiled line for one call: two leading spaces, the substituted
pattern, a terminating semicolon (push.js lines 104, 126). -/
def compileCall (call : Call) : String :=
  "  " ++ compileFrom call.pattern.data call.arguments 0 ++ ";"

/-- self._getCalls (push.js lines 102-129): map each call to its compiled
line and join the lines with newlines. -/
def _getCalls (calls : List Call) : String :=
  String.intercalate "\n" (calls.map compileCall)

/-- Per-request state attached to the request object: `_aposCalls` and
`_aposData`, both created lazily (absent until the first push). -/
structure Req where
  aposCalls : Option (List Call)
  aposData : Option (List JVal)

/-- req.pushCall (push.js lines 47-58): append a registration to the
request's lazily created call list. -/
def pushCall (req : Req) (pat : String) (arguments : List JVal) : Req :=
  { req with aposCalls := some ((req.aposCalls.getD []) ++ [⟨pat, arguments⟩]) }

/-- self.getCalls (push.js lines 60-62): `self._getCalls(req._aposCalls || [])`. -/
def getCalls (req : Req) : String :=
  _getCalls (req.aposCalls.getD [])

/-- Process-wide push state: `self._globalCalls` (a map from "when" keys
to call lists, keys absent until first use) and `self._globalData`. -/
structure PushState where
  globalCalls : String → Option (List Call)
  globalData : List JVal

/-- self.pushGlobalCallWhen (push.js lines 76-83): append under the key
`when`, creating the per-key list on first use. -/
def pushGlobalCallWhen (st : PushState) (whenKey : String) (pat : String)
    (arguments : List JVal) : PushState :=
  { st with globalCalls := fun k =>
      if k = whenKey then some ((st.globalCalls whenKey).getD [] ++ [⟨pat, arguments⟩])
      else st.globalCalls k }

/-- self.getGlobalCallsWhen (push.js lines 85-88):
`self._getCalls(self._globalCalls[when] || [])`. -/
def getGlobalCallsWhen (st : PushState) (whenKey : String) : String :=
  _getCalls ((st.globalCalls whenKey).getD [])

/-- self._getData (push.js lines 177-183): the namespace guard line, a
newline, then the `$.extend` merge lines joined by newlines. -/
def _getData (data : List JVal) : String :=
  "  apos.data = apos.data || \x7b\x7d;\n" ++
    String.intercalate "\n" (data.map (fun datum =>
      "  $.extend(true, apos.data, " ++ jsonConcatText datum ++ ");"))

/-- req.pushData (push.js lines 145-151). -/
def pushData (req : Req) (datum : JVal) : Req :=
  { req with aposData := some ((req.aposData.getD []) ++ [datum]) }

/-- self.getData (push.js lines 153-155): `self._getData(req._aposData || [])`. -/
def getData (req : Req) : String :=
  _getData (req.aposData.getD [])

/-- self.pushGlobalData (push.js lines 169-171). -/
def pushGlobalData (st : PushState) (datum : JVal) : PushState :=
  { st with globalData := st.globalData ++ [datum] }

/-- self.getGlobalData (push.js lines 173-175). -/
def getGlobalData (st : PushState) : String :=
  _getData st.globalData

/-- self.getCalls viewed as a state-passing operation. The source body of
`getCalls`/`_getCalls` performs no assignment to `req._aposCalls` (it only
reads the list through `_.map` and string operations), so the request
state threads through unchanged. -/
def getCallsOp (req : Req) : String × Req :=
  (getCalls req, req)

/-- self.getGlobalCallsWhen viewed as a state-passing operation; the
source body performs no assignment to `self._globalCalls`. -/
def getGlobalCallsWhenOp (st : PushState) (whenKey : String) : String × PushState :=
  (getGlobalCallsWhen st whenKey, st)

/-- Argument shape accepted by getNunjucksEnv's `dirs` parameter: the
parameter may be omitted, may be a bare string, or may be an array of
directory strings. -/
inductive DirsArg where
  | missing
  | single (s : String)
  | many (dirs : List String)

/-- Values stored in a template data context: plain JS values, the
facade's own `self.partial` function (stored by `data.partial = self.partial`),
or one of the opaque helper functions from `self._aposLocals`. -/
inductive LVal where
  | js (v : JVal)
  | selfPartial
  | localFn (name : String)

/-- Configuration read by templates.js from `self`: `options.partialPaths`
(absent unless configured), the module's baseline views directory
`__dirname + '/../views'` (a deployment-dependent constant), and the
`self._aposLocals` helper object. -/
structure TCfg where
  partialPaths : Option (List String)
  viewsDir : String
  aposLocals : List (String × LVal)

/-- Normalization of the `dirs` argument (templates.js lines 62-68):
`if (!dirs) dirs = []` maps a missing argument, and a bare falsy string
(the empty string), to the empty array; `if (!Array.isArray(dirs))
dirs = [dirs]` then wraps a remaining bare value. -/
def normalizeDirs : DirsArg → List String
  | .missing => []
  | .single s => if s = "" then [] else [s]
  | .many ds => ds

/-- Full directory list searched by the environment (templates.js lines
70-74): the normalized argument, then `self.options.partialPaths || []`,
then the module's views directory appended last. -/
def envDirs (cfg : TCfg) (arg : DirsArg) : List String :=
  normalizeDirs arg ++ cfg.partialPaths.getD [] ++ [cfg.viewsDir]

/-- Array.prototype.join with separator `:` (templates.js line 76). -/
def joinColon : List String → String
  | [] => ""
  | [d] => d
  | d :: rest => d ++ ":" ++ joinColon rest

/-- Cache key `dirsKey = dirs.join(':')` (templates.js line 76). -/
def envKey (cfg : TCfg) (arg : DirsArg) : String :=
  joinColon (envDirs cfg arg)

/-- State of the template environment cache: the `nunjucksEnvs` map,
modelled as an association list from key to environment identity, plus a
counter supplying the identity of the next environment that
`newNunjucksEnv` would create (each creation yields a distinct object). -/
structure TState where
  envs : List (String × Nat)
  nextId : Nat

/-- Lookup in the `nunjucksEnvs` map. -/
def lookupEnv : List (String × Nat) → String → Option Nat
  | [], _ => none
  | (k, e) :: rest, key => if k = key then some e else lookupEnv rest key

/-- self.getNunjucksEnv (templates.js lines 61-81): normalize the
directories, build the colon-joined key, return the cached environment
when present, otherwise create a fresh environment (via newNunjucksEnv,
whose filter registrations are external library calls and do not affect
cache behavior), store it under the key and return it. -/
def getNunjucksEnv (cfg : TCfg) (st : TState) (arg : DirsArg) : Nat × TState :=
  let key := envKey cfg arg
  match lookupEnv st.envs key with
  | some e => (e, st)
  | none => (st.nextId, ⟨(key, st.nextId) :: st.envs, st.nextId + 1⟩)

/-- Property lookup on a data object modelled as an ordered association
list; `none` plays the role of the JS value `undefined` (every read the
source performs on these objects is through `typeof === 'undefined'` or
`=== void 0` checks, so absent and undefined-valued are observably equal). -/
def objGet : List (String × LVal) → String → Option LVal
  | [], _ => none
  | (k, v) :: rest, key => if k = key then some v else objGet rest key

/-- Underscore's `_.defaults(obj, source)`: for each key of `source` whose
value in `obj` is undefined, copy the source binding; existing bindings of
`obj` keep their values. -/
def udefaults (o src : List (String × LVal)) : List (String × LVal) :=
  o ++ src.filter (fun p => (objGet o p.1).isNone)

/-- Data-context preparation performed by self.partial (templates.js lines
30-44) before rendering: default a missing `data` to the empty object, set
`data.partial = self.partial` when `typeof(data.partial)` is undefined,
then `_.defaults(data, self._aposLocals)`. Rendering itself
(`getTemplate(name + '.html').render(data)`) is an external nunjucks call
and is not modelled. -/
def renderPartialData (cfg : TCfg) (dataArg : Option (List (String × LVal))) :
    List (String × LVal) :=
  let data := dataArg.getD []
  let data :=
    if (objGet data "partial").isNone then data ++ [("partial", LVal.selfPartial)]
    else data
  udefaults data cfg.aposLocals

/-- List-consuming view of the compile loop: identical scan, but the
pending arguments are carried as the not-yet-consumed suffix instead of an
index into the full array (reading past the end still yields JS
`undefined`). Proved equal to `compileFrom` below. -/
def compileConsume : List Char → List JVal → String
  | [], _ => ""
  | c :: rest, arguments =>
    if c = '?' then jsonConcatText (arguments.headD JVal.undef) ++ compileConsume rest arguments.tail
    else if c = '@' then jToString (arguments.headD JVal.undef) ++ compileConsume rest arguments.tail
    else String.singleton c ++ compileConsume rest arguments

/-- Number of placeholder characters (`?` or `@`) in a pattern. -/
def phCount : List Char → Nat
  | [] => 0
  | c :: rest =>
    if c = '?' then phCount rest + 1
    else if c = '@' then phCount rest + 1
    else phCount rest

/-- Segment of a pattern as the specification describes it: verbatim text,
a JSON placeholder (`?`), or a literal placeholder (`@`). -/
inductive Seg where
  | text (s : String)
  | json
  | lit

/-- Reading of a pattern into segments, following the specification's
description of the scan: each `?` is a JSON placeholder, each `@` a
literal placeholder, every other character is verbatim text. -/
def parsePattern : List Char → List Seg
  | [] => []
  | c :: rest =>
    (if c = '?' then Seg.json
     else if c = '@' then Seg.lit
     else Seg.text (String.singleton c)) :: parsePattern rest

/-- Rendering of a segment list per the claim: text is copied verbatim,
each placeholder consumes the next argument in left-to-right order (JSON
serialization for a JSON placeholder, unquoted textual value for a literal
placeholder); `none` when the placeholder count differs from the argument
count. -/
def specRender : List Seg → List JVal → Option String
  | [], [] => some ""
  | [], _ :: _ => none
  | .text s :: rest, arguments => (specRender rest arguments).map (fun t => s ++ t)
  | .json :: _, [] => none
  | .json :: rest, a :: arguments => (specRender rest arguments).map (fun t => jsonConcatText a ++ t)
  | .lit :: _, [] => none
  | .lit :: rest, a :: arguments => (specRender rest arguments).map (fun t => jToString a ++ t)

/-- Compiled line for one well-formed registration, per the claim: two
leading spaces, the substituted pattern, a terminating semicolon. -/
def specCall (call : Call) : Option String :=
  (specRender (parsePattern call.pattern.data) call.arguments).map
    (fun s => "  " ++ s ++ ";")

/-- Compiled lines of a registration list, all well-formed. -/
def specLinesOf : List Call → Option (List String)
  | [] => some []
  | c :: rest =>
    match specCall c, specLinesOf rest with
    | some l, some ls => some (l :: ls)
    | _, _ => none

/-- Flush output per the claim: the newline-join, in registration order,
of one compiled line per registration. -/
def specCalls (calls : List Call) : Option String :=
  (specLinesOf calls).map (String.intercalate "\n")

/-- Rendering per the count-mismatch claim: pattern text copied verbatim,
placeholders consume arguments left to right, arguments left over after
the pattern is exhausted are ignored, and every placeholder left
unmatched contributes the text `undefined`. -/
def lenientRender : List Seg → List JVal → String
  | [], _ => ""
  | .text s :: rest, arguments => s ++ lenientRender rest arguments
  | .json :: rest, [] => "undefined" ++ lenientRender rest []
  | .json :: rest, a :: arguments => jsonConcatText a ++ lenientRender rest arguments
  | .lit :: rest, [] => "undefined" ++ lenientRender rest []
  | .lit :: rest, a :: arguments => jToString a ++ lenientRender rest arguments

/-- Merge line per the data claim: a deep-merge of the JSON serialization
of one datum into the shared namespace. -/
def specMergeLine (datum : JVal) : String :=
  match jsonText datum with
  | some j => "  $.extend(true, apos.data, " ++ j ++ ");"
  | none => ""

/-- Data flush output per the claim: the namespace guard line first, then
one merge line per registered datum in registration order. -/
def specDataBlock (data : List JVal) : String :=
  "  apos.data = apos.data || \x7b\x7d;\n" ++
    String.intercalate "\n" (data.map specMergeLine)

/-- Normalization of the directory argument exactly as claim C6 words it:
a missing argument becomes the empty list, a bare non-array value is
wrapped as a single-element list. -/
def claimedNormalize : DirsArg → List String
  | .missing => []
  | .single s => [s]
  | .many ds => ds

/-- Cache key exactly as claim C6 words it: the colon-join of the
normalized directories with the baseline views directory appended last. -/
def claimedKey (viewsDir : String) (arg : DirsArg) : String :=
  joinColon (claimedNormalize arg ++ [viewsDir])

/-- Normalization of the directory argument per the amended claim: a
missing argument or a bare falsy value (the empty string) becomes the
empty list, any other bare non-array value is wrapped as a single-element
list. -/
def amendedNormalize : DirsArg → List String
  | .missing => []
  | .single s => if s = "" then [] else [s]
  | .many ds => ds

/-- Cache key per the amended claim: the colon-join of the normalized
directories, then the configured partialPaths, then the baseline views
directory last. -/
def amendedKey (pp : List String) (viewsDir : String) (arg : DirsArg) : String :=
  joinColon (amendedNormalize arg ++ pp ++ [viewsDir])

theorem headD_drop (l : List JVal) (n : Nat) :
    (l.drop n).headD JVal.undef = l.getD n JVal.undef := by
  induction l generalizing n with
  | nil => cases n <;> rfl
  | cons a t ih =>
    cases n with
    | zero => rfl
    | succ m => exact ih m

theorem dropTail (l : List JVal) (n : Nat) :
    (l.drop n).tail = l.drop (n + 1) := by
  induction l generalizing n with
  | nil => cases n <;> rfl
  | cons a t ih =>
    cases n with
    | zero => rfl
    | succ m => exact ih m

theorem compileFrom_eq_consume (cs : List Char) (arguments : List JVal) (n : Nat) :
    compileFrom cs arguments n = compileConsume cs (arguments.drop n) := by
  induction cs generalizing n with
  | nil => rfl
  | cons c rest ih =>
    by_cases h1 : c = '?'
    · simp [compileFrom, compileConsume, h1, headD_drop, dropTail, ih]
    · by_cases h2 : c = '@'
      · simp [compileFrom, compileConsume, h1, h2, headD_drop, dropTail, ih]
      · simp [compileFrom, compileConsume, h1, h2, ih]

theorem compileCall_consume (call : Call) :
    compileCall call = "  " ++ compileConsume call.pattern.data call.arguments ++ ";" := by
  unfold compileCall
  rw [compileFrom_eq_consume]
  simp

theorem specRender_sound (cs : List Char) (arguments : List JVal) (s : String)
    (h : specRender (parsePattern cs) arguments = some s) :
    compileConsume cs arguments = s := by
  induction cs generalizing arguments s with
  | nil =>
    cases arguments with
    | nil =>
      simp only [parsePattern, specRender, Option.some.injEq] at h
      simpa [compileConsume] using h
    | cons a t => simp [parsePattern, specRender] at h
  | cons c rest ih =>
    by_cases h1 : c = '?'
    · subst h1
      cases arguments with
      | nil => simp [parsePattern, specRender] at h
      | cons a t =>
        simp only [parsePattern, if_pos rfl, specRender, Option.map_eq_some'] at h
        obtain ⟨t', ht', rfl⟩ := h
        simp [compileConsume, ih _ _ ht']
    · by_cases h2 : c = '@'
      · subst h2
        cases arguments with
        | nil => simp [parsePattern, specRender, h1] at h
        | cons a t =>
          simp only [parsePattern, h1, if_neg, if_pos rfl, specRender,
            Option.map_eq_some', reduceIte] at h
          obtain ⟨t', ht', rfl⟩ := h
          simp [compileConsume, h1]
          rw [ih _ _ ht']
      · simp only [parsePattern, h1, h2, if_neg, specRender, Option.map_eq_some',
          reduceIte] at h
        obtain ⟨t', ht', rfl⟩ := h
        simp [compileConsume, h1, h2]
        rw [ih _ _ ht']

theorem specCall_sound (call : Call) (l : String) (h : specCall call = some l) :
    compileCall call = l := by
  unfold specCall at h
  rw [Option.map_eq_some'] at h
  obtain ⟨s, hs, rfl⟩ := h
  rw [compileCall_consume, specRender_sound _ _ _ hs]

theorem specLines_sound (calls : List Call) (ls : List String)
    (h : specLinesOf calls = some ls) : calls.map compileCall = ls := by
  induction calls generalizing ls with
  | nil =>
    simp only [specLinesOf, Option.some.injEq] at h
    simp [← h]
  | cons c rest ih =>
    unfold specLinesOf at h
    cases hc : specCall c with
    | none => rw [hc] at h; simp at h
    | some l =>
      cases hr : specLinesOf rest with
      | none => rw [hc, hr] at h; simp at h
      | some ls' =>
        rw [hc, hr] at h
        simp only [Option.some.injEq] at h
        rw [List.map_cons, specCall_sound c l hc, ih ls' hr, h]

theorem consume_take (cs : List Char) (arguments : List JVal) :
    compileConsume cs arguments = compileConsume cs (arguments.take (phCount cs)) := by
  induction cs generalizing arguments with
  | nil => rfl
  | cons c rest ih =>
    by_cases h1 : c = '?'
    · cases arguments with
      | nil => simp [compileConsume, phCount, h1]
      | cons a t => simp [compileConsume, phCount, h1, List.take_succ_cons, ← ih]
    · by_cases h2 : c = '@'
      · cases arguments with
        | nil => simp [compileConsume, phCount, h1, h2]
        | cons a t => simp [compileConsume, phCount, h1, h2, List.take_succ_cons, ← ih]
      · simp [compileConsume, phCount, h1, h2, ← ih]

theorem consume_lenient (cs : List Char) (arguments : List JVal) :
    compileConsume cs arguments = lenientRender (parsePattern cs) arguments := by
  induction cs generalizing arguments with
  | nil => rfl
  | cons c rest ih =>
    by_cases h1 : c = '?'
    · cases arguments with
      | nil =>
        simp [compileConsume, parsePattern, lenientRender, h1, jsonConcatText, jsonText, ← ih]
      | cons a t => simp [compileConsume, parsePattern, lenientRender, h1, ← ih]
    · by_cases h2 : c = '@'
      · cases arguments with
        | nil =>
          simp [compileConsume, parsePattern, lenientRender, h1, h2, jToString, ← ih]
        | cons a t => simp [compileConsume, parsePattern, lenientRender, h1, h2, ← ih]
      · simp [compileConsume, parsePattern, lenientRender, h1, h2, ← ih]

theorem consume_plain (cs rest : List Char) (arguments : List JVal)
    (h : ∀ c ∈ cs, c ≠ '?' ∧ c ≠ '@') :
    compileConsume (cs ++ rest) arguments = String.mk cs ++ compileConsume rest arguments := by
  induction cs with
  | nil =>
    show compileConsume rest arguments = String.mk [] ++ compileConsume rest arguments
    cases hx : compileConsume rest arguments
    rfl
  | cons c cs' ih =>
    have hc := h c (by simp)
    have ih' := ih (fun c hm => h c (by simp [hm]))
    show compileConsume (c :: (cs' ++ rest)) arguments
      = String.mk (c :: cs') ++ compileConsume rest arguments
    rw [compileConsume, if_neg hc.1, if_neg hc.2, ih', ← String.append_assoc]
    rfl

theorem objGet_append_some (l t : List (String × LVal)) (k : String) (v : LVal)
    (h : objGet l k = some v) : objGet (l ++ t) k = some v := by
  induction l with
  | nil => simp [objGet] at h
  | cons p rest ih =>
    obtain ⟨k', v'⟩ := p
    by_cases hk : k' = k
    · subst hk
      simp [objGet] at h ⊢
      exact h
    · simp only [objGet, hk, if_neg, reduceIte] at h
      simp [List.cons_append, objGet, hk, ih h]

theorem objGet_append_none (l t : List (String × LVal)) (k : String)
    (h : objGet l k = none) : objGet (l ++ t) k = objGet t k := by
  induction l with
  | nil => rfl
  | cons p rest ih =>
    obtain ⟨k', v'⟩ := p
    by_cases hk : k' = k
    · simp [objGet, hk] at h
    · simp only [objGet, hk, if_neg, reduceIte] at h
      simp [List.cons_append, objGet, hk, ih h]

theorem objGet_filterKey (P : String → Bool) (l : List (String × LVal)) (k : String)
    (hP : P k = true) : objGet (l.filter fun p => P p.1) k = objGet l k := by
  induction l with
  | nil => rfl
  | cons p rest ih =>
    obtain ⟨k', v'⟩ := p
    by_cases hk : k' = k
    · subst hk
      simp [List.filter_cons, hP, objGet, ih]
    · cases hPk : P k' with
      | true => simp [List.filter_cons, hPk, objGet, hk, ih]
      | false => simp [List.filter_cons, hPk, objGet, hk, ih]

theorem mergeLines_eq (data : List JVal)
    (h : ∀ d ∈ data, (jsonText d).isSome) :
    data.map (fun datum => "  $.extend(true, apos.data, " ++ jsonConcatText datum ++ ");")
      = data.map specMergeLine := by
  induction data with
  | nil => rfl
  | cons d rest ih =>
    have hd := h d (by simp)
    obtain ⟨j, hj⟩ := Option.isSome_iff_exists.mp hd
    simp only [List.map_cons]
    rw [ih (fun x hx => h x (by simp [hx]))]
    unfold jsonConcatText specMergeLine
    rw [hj]
    rfl

theorem envKey_pair_ne (cfg : TCfg) :
    envKey cfg (DirsArg.many ["/d1", "/d2"]) ≠ envKey cfg (DirsArg.many ["/d2", "/d1"]) := by
  have e1 : envKey cfg (DirsArg.many ["/d1", "/d2"])
      = "/d1" ++ ":" ++ joinColon ("/d2" :: (cfg.partialPaths.getD [] ++ [cfg.viewsDir])) := by
    simp [envKey, envDirs, normalizeDirs, joinColon]
  have e2 : envKey cfg (DirsArg.many ["/d2", "/d1"])
      = "/d2" ++ ":" ++ joinColon ("/d1" :: (cfg.partialPaths.getD [] ++ [cfg.viewsDir])) := by
    simp [envKey, envDirs, normalizeDirs, joinColon]
  rw [e1, e2]
  intro h
  have hd := congrArg String.data h
  simp only [String.data_append] at hd
  have h4 := congrArg (fun l : List Char => l[2]?) hd
  have h5 : (some '1' : Option Char) = some '2' := h4
  exact absurd h5 (by decide)

/-- C1: for every list of call registrations in which each registration's
placeholder count equals its argument count (captured by `specCalls`
succeeding), the flush operation `_getCalls` returns the newline-join, in
registration order, of one compiled line per registration, each line
produced by the left-to-right scan that substitutes the JSON serialization
of the next argument for `?` and the unquoted textual value for `@`
(arguments consumed strictly in scan order), copies the remaining pattern
text verbatim, and wraps the result in two leading spaces and a trailing
semicolon. -/
theorem flush_compiles_wellformed (calls : List Call) (out : String)
    (h : specCalls calls = some out) : _getCalls calls = out := by
  unfold specCalls at h
  cases hl : specLinesOf calls with
  | none => rw [hl] at h; simp at h
  | some ls =>
    rw [hl] at h
    simp only [Option.map_some', Option.some.injEq] at h
    unfold _getCalls
    rw [specLines_sound calls ls hl, h]

/-- Witness for C1 at the registration of the claim: `('new @(?)',
'Widget', \x7bx:1\x7d)` is well-formed and compiles to the line
`  new Widget(\x7b"x":1\x7d);`. -/
theorem flush_compiles_wellformed_witness :
    specCalls [⟨"new @(?)", [JVal.str "Widget", JVal.obj [("x", JVal.num 1)]]⟩]
      = some "  new Widget(\x7b\"x\":1\x7d);" ∧
    _getCalls [⟨"new @(?)", [JVal.str "Widget", JVal.obj [("x", JVal.num 1)]]⟩]
      = "  new Widget(\x7b\"x\":1\x7d);" :=
  ⟨by decide, flush_compiles_wellformed _ _ (by decide)⟩

/-- C2: for every list of data registrations (empty included), the data
flush returns the namespace guard line `  apos.data = apos.data || \x7b\x7d;`
followed by exactly one deep-merge line `  $.extend(true, apos.data, J);`
per registered datum, in registration order, with J the JSON serialization
of the datum; this covers `getData` on the request's list and
`getGlobalData` on the process-wide list. -/
theorem data_flush_block (req : Req) (ds : List JVal) (st : PushState)
    (hreq : req.aposData = some ds)
    (hds : ∀ d ∈ ds, (jsonText d).isSome)
    (hg : ∀ d ∈ st.globalData, (jsonText d).isSome) :
    getData req = specDataBlock ds ∧ getGlobalData st = specDataBlock st.globalData := by
  constructor
  · unfold getData
    rw [hreq]
    simp only [Option.getD_some]
    unfold _getData specDataBlock
    rw [mergeLines_eq ds hds]
  · unfold getGlobalData _getData specDataBlock
    rw [mergeLines_eq st.globalData hg]

/-- Witness for C2: one nonempty request list and the empty global list. -/
theorem data_flush_block_witness :
    getData ⟨none, some [JVal.obj [("a", JVal.num 1)]]⟩
      = specDataBlock [JVal.obj [("a", JVal.num 1)]] ∧
    getGlobalData ⟨fun _ => none, []⟩ = specDataBlock [] :=
  data_flush_block ⟨none, some [JVal.obj [("a", JVal.num 1)]]⟩
    [JVal.obj [("a", JVal.num 1)]] ⟨fun _ => none, []⟩ rfl (by decide) (by decide)

/-- C3: a request whose per-request call list is absent or empty flushes
to the empty string, and an activation key with no registered global calls
flushes to the empty string. -/
theorem flush_empty_returns_empty (req : Req) (st : PushState) (whenKey : String)
    (hreq : req.aposCalls = none ∨ req.aposCalls = some [])
    (hst : st.globalCalls whenKey = none) :
    getCalls req = "" ∧ getGlobalCallsWhen st whenKey = "" := by
  constructor
  · unfold getCalls
    cases hreq with
    | inl h => rw [h]; rfl
    | inr h => rw [h]; rfl
  · unfold getGlobalCallsWhen
    rw [hst]
    rfl

/-- Witness for C3: a fresh request and an empty global registry, flushed
under the key `user`. -/
theorem flush_empty_returns_empty_witness :
    getCalls ⟨none, none⟩ = "" ∧ getGlobalCallsWhen ⟨fun _ => none, []⟩ "user" = "" :=
  flush_empty_returns_empty ⟨none, none⟩ ⟨fun _ => none, []⟩ "user" (Or.inl rfl) rfl

/-- C4: a registration with fewer placeholders than arguments compiles
exactly as if the extra arguments were absent (only the first
`phCount` arguments are read), and every placeholder without a matching
argument contributes the text `undefined` to the output (the literal
`undefined` for `?`, coming from concatenating the undefined result of
JSON.stringify, and the string coercion `undefined` for `@`), as the
equality with `lenientRender` states; both directions raise no error since
the compiler is a total function. -/
theorem compile_count_mismatch_lenient (p : String) (arguments : List JVal) :
    compileCall ⟨p, arguments⟩ = compileCall ⟨p, arguments.take (phCount p.data)⟩ ∧
    compileCall ⟨p, arguments⟩ = "  " ++ lenientRender (parsePattern p.data) arguments ++ ";" := by
  constructor
  · rw [compileCall_consume, compileCall_consume]
    simp only []
    rw [← consume_take]
  · rw [compileCall_consume, consume_lenient]

/-- C8: flushing is a non-mutating, idempotent read. In the source the
bodies of `getCalls` and `getGlobalCallsWhen` (and of `_getCalls`, which
they call) contain no assignment to `req._aposCalls` or
`self._globalCalls`, so as state-passing operations they return the state
unchanged, and a second flush of the unchanged state returns the same
string. -/
theorem flush_idempotent_read (req : Req) (st : PushState) (whenKey : String) :
    (getCallsOp req).2 = req ∧
    (getGlobalCallsWhenOp st whenKey).2 = st ∧
    (getCallsOp (getCallsOp req).2).1 = (getCallsOp req).1 ∧
    (getGlobalCallsWhenOp (getGlobalCallsWhenOp st whenKey).2 whenKey).1
      = (getGlobalCallsWhenOp st whenKey).1 :=
  ⟨rfl, rfl, rfl, rfl⟩

/-- C9: text substituted for a placeholder is never re-scanned. For a
pattern that is a placeholder-free prefix `u`, a placeholder, and an
arbitrary tail `w`, the compiled output is exactly `u`, then the
substituted serialization spliced in verbatim (whatever characters it
contains, `?` and `@` included), then the compilation of `w` against the
remaining arguments: a placeholder character inside the substituted text
neither becomes a placeholder nor consumes an argument. -/
theorem substitution_not_rescanned (u w : String) (v : JVal) (arguments : List JVal)
    (h : ∀ c ∈ u.data, c ≠ '?' ∧ c ≠ '@') :
    compileConsume (u ++ "?" ++ w).data (v :: arguments)
      = u ++ (jsonConcatText v ++ compileConsume w.data arguments) ∧
    compileConsume (u ++ "@" ++ w).data (v :: arguments)
      = u ++ (jToString v ++ compileConsume w.data arguments) := by
  have hu : String.mk u.data = u := by cases u; rfl
  constructor
  · have hdata : (u ++ "?" ++ w).data = u.data ++ ('?' :: w.data) := by
      simp [String.data_append]
    rw [hdata, consume_plain u.data ('?' :: w.data) (v :: arguments) h, hu]
    simp [compileConsume]
  · have hdata : (u ++ "@" ++ w).data = u.data ++ ('@' :: w.data) := by
      simp [String.data_append]
    rw [hdata, consume_plain u.data ('@' :: w.data) (v :: arguments) h, hu]
    simp [compileConsume]

/-- Witness for C9: an argument whose JSON serialization contains both a
`?` and an `@` is spliced verbatim and consumes only its own placeholder. -/
theorem substitution_not_rescanned_witness :
    compileConsume ("f(" ++ "?" ++ ")").data [JVal.str "a?@b"]
      = "f(" ++ (jsonConcatText (JVal.str "a?@b") ++ compileConsume (")").data []) ∧
    "f(" ++ (jsonConcatText (JVal.str "a?@b") ++ compileConsume (")").data [])
      = "f(\"a?@b\")" :=
  ⟨(substitution_not_rescanned "f(" ")" (JVal.str "a?@b") [] (by decide)).1, by decide⟩

/-- C5: starting from any cache state in which neither key is present,
requesting the environment for `['/d1','/d2']`, then again for the same
list in the same order, returns the identical cached instance and leaves
the cache unchanged, while requesting `['/d2','/d1']` afterwards returns a
distinct instance. -/
theorem env_cache_same_order_cached (cfg : TCfg) (st : TState)
    (h1 : lookupEnv st.envs (envKey cfg (DirsArg.many ["/d1", "/d2"])) = none)
    (h2 : lookupEnv st.envs (envKey cfg (DirsArg.many ["/d2", "/d1"])) = none) :
    (getNunjucksEnv cfg (getNunjucksEnv cfg st (DirsArg.many ["/d1", "/d2"])).2
        (DirsArg.many ["/d1", "/d2"])).1
      = (getNunjucksEnv cfg st (DirsArg.many ["/d1", "/d2"])).1 ∧
    (getNunjucksEnv cfg (getNunjucksEnv cfg st (DirsArg.many ["/d1", "/d2"])).2
        (DirsArg.many ["/d1", "/d2"])).2
      = (getNunjucksEnv cfg st (DirsArg.many ["/d1", "/d2"])).2 ∧
    (getNunjucksEnv cfg (getNunjucksEnv cfg st (DirsArg.many ["/d1", "/d2"])).2
        (DirsArg.many ["/d2", "/d1"])).1
      ≠ (getNunjucksEnv cfg st (DirsArg.many ["/d1", "/d2"])).1 := by
  have hne := envKey_pair_ne cfg
  have r1 : getNunjucksEnv cfg st (DirsArg.many ["/d1", "/d2"])
      = (st.nextId, ⟨(envKey cfg (DirsArg.many ["/d1", "/d2"]), st.nextId) :: st.envs,
          st.nextId + 1⟩) := by
    simp only [getNunjucksEnv]
    rw [h1]
  have l2 : lookupEnv ((envKey cfg (DirsArg.many ["/d1", "/d2"]), st.nextId) :: st.envs)
      (envKey cfg (DirsArg.many ["/d1", "/d2"])) = some st.nextId := by
    simp [lookupEnv]
  have l3 : lookupEnv ((envKey cfg (DirsArg.many ["/d1", "/d2"]), st.nextId) :: st.envs)
      (envKey cfg (DirsArg.many ["/d2", "/d1"])) = none := by
    simp [lookupEnv, hne, h2]
  refine ⟨?_, ?_, ?_⟩
  · rw [r1]
    simp only [getNunjucksEnv]
    rw [l2]
  · rw [r1]
    simp only [getNunjucksEnv]
    rw [l2]
  · rw [r1]
    simp only [getNunjucksEnv]
    rw [l3]
    simp

/-- Witness for C5 from the empty cache with an arbitrary configuration. -/
theorem env_cache_same_order_cached_witness :
    (getNunjucksEnv ⟨none, "/views", []⟩
        (getNunjucksEnv ⟨none, "/views", []⟩ ⟨[], 0⟩ (DirsArg.many ["/d1", "/d2"])).2
        (DirsArg.many ["/d1", "/d2"])).1
      = (getNunjucksEnv ⟨none, "/views", []⟩ ⟨[], 0⟩ (DirsArg.many ["/d1", "/d2"])).1 ∧
    (getNunjucksEnv ⟨none, "/views", []⟩
        (getNunjucksEnv ⟨none, "/views", []⟩ ⟨[], 0⟩ (DirsArg.many ["/d1", "/d2"])).2
        (DirsArg.many ["/d1", "/d2"])).2
      = (getNunjucksEnv ⟨none, "/views", []⟩ ⟨[], 0⟩ (DirsArg.many ["/d1", "/d2"])).2 ∧
    (getNunjucksEnv ⟨none, "/views", []⟩
        (getNunjucksEnv ⟨none, "/views", []⟩ ⟨[], 0⟩ (DirsArg.many ["/d1", "/d2"])).2
        (DirsArg.many ["/d2", "/d1"])).1
      ≠ (getNunjucksEnv ⟨none, "/views", []⟩ ⟨[], 0⟩ (DirsArg.many ["/d1", "/d2"])).1 :=
  env_cache_same_order_cached ⟨none, "/views", []⟩ ⟨[], 0⟩ rfl rfl

/-- C6 counterexample: the claim's key construction (`claimedKey`) differs
from the code's (`envKey`) on two concrete inputs: a bare empty-string
argument (falsy in JS, so the code normalizes it to the empty list rather
than wrapping it), and a configuration with a nonempty
`options.partialPaths` (which the code splices in between the argument
directories and the views directory). -/
theorem env_key_claim_cex :
    envKey ⟨none, "V", []⟩ (DirsArg.single "") ≠ claimedKey "V" (DirsArg.single "") ∧
    envKey ⟨some ["P"], "V", []⟩ (DirsArg.many ["D"]) ≠ claimedKey "V" (DirsArg.many ["D"]) := by
  constructor
  · intro h
    have h' : ("V" : String) = ":V" := h
    exact absurd h' (by decide)
  · intro h
    have h' : ("D:P:V" : String) = "D:V" := h
    exact absurd h' (by decide)

/-- C6 as amended: for every input to getNunjucksEnv, the directory
argument is normalized to an ordered list (a missing argument or a bare
falsy value such as the empty string becomes the empty list, any other
bare non-array value is wrapped as a single-element list), the configured
options.partialPaths (if any) are appended next, the module's baseline
views directory is appended as the last search location, and the cache key
used for memoization is exactly the colon-join of the resulting ordered
directory list: a cached entry under that key is returned as is, and a
miss registers the fresh environment under exactly that key. -/
theorem env_key_amended (cfg : TCfg) (st : TState) (arg : DirsArg) :
    envKey cfg arg = amendedKey (cfg.partialPaths.getD []) cfg.viewsDir arg ∧
    (envDirs cfg arg).getLast? = some cfg.viewsDir ∧
    (∀ e, lookupEnv st.envs (amendedKey (cfg.partialPaths.getD []) cfg.viewsDir arg) = some e →
      getNunjucksEnv cfg st arg = (e, st)) ∧
    (lookupEnv st.envs (amendedKey (cfg.partialPaths.getD []) cfg.viewsDir arg) = none →
      getNunjucksEnv cfg st arg
        = (st.nextId, ⟨(amendedKey (cfg.partialPaths.getD []) cfg.viewsDir arg, st.nextId)
            :: st.envs, st.nextId + 1⟩)) := by
  have hk : envKey cfg arg = amendedKey (cfg.partialPaths.getD []) cfg.viewsDir arg := by
    cases arg <;> rfl
  refine ⟨hk, ?_, ?_, ?_⟩
  · simp [envDirs]
  · intro e he
    simp only [getNunjucksEnv]
    rw [hk, he]
  · intro he
    simp only [getNunjucksEnv]
    rw [hk, he]

/-- Witness for C6's amended claim: a miss on the empty cache registers
the environment under the amended key. -/
theorem env_key_amended_witness :
    getNunjucksEnv ⟨none, "/views", []⟩ ⟨[], 0⟩ (DirsArg.many ["/d"])
      = (0, ⟨[(amendedKey [] "/views" (DirsArg.many ["/d"]), 0)], 1⟩) :=
  (env_key_amended ⟨none, "/views", []⟩ ⟨[], 0⟩ (DirsArg.many ["/d"])).2.2.2 rfl

/-- C7: the render facade's data preparation keeps every key already
present in the data object at its original value after the shared helper
locals are merged in (first-writer-wins), sets `data.partial` to the
facade's own partial function when it is unset on entry, merges in any
helper local whose key is absent from the data (other than the
specially-set `partial` key), and treats a missing data argument exactly
as an empty object. -/
theorem partial_data_first_writer_wins (cfg : TCfg)
    (dataArg : Option (List (String × LVal))) :
    (∀ k v, objGet (dataArg.getD []) k = some v →
      objGet (renderPartialData cfg dataArg) k = some v) ∧
    (objGet (dataArg.getD []) "partial" = none →
      objGet (renderPartialData cfg dataArg) "partial" = some LVal.selfPartial) ∧
    (∀ k v, objGet (dataArg.getD []) k = none → k ≠ "partial" →
      objGet cfg.aposLocals k = some v →
      objGet (renderPartialData cfg dataArg) k = some v) ∧
    renderPartialData cfg none = renderPartialData cfg (some []) := by
  cases hp0 : objGet (dataArg.getD []) "partial" with
  | none =>
    have hform : renderPartialData cfg dataArg
        = (dataArg.getD [] ++ [("partial", LVal.selfPartial)])
          ++ cfg.aposLocals.filter
            (fun p => (objGet (dataArg.getD [] ++ [("partial", LVal.selfPartial)]) p.1).isNone) := by
      simp [renderPartialData, udefaults, hp0]
    refine ⟨?_, ?_, ?_, rfl⟩
    · intro k v hv
      rw [hform]
      exact objGet_append_some _ _ _ _ (objGet_append_some _ _ _ _ hv)
    · intro hp
      rw [hform]
      have hmid : objGet (dataArg.getD [] ++ [("partial", LVal.selfPartial)]) "partial"
          = some LVal.selfPartial := by
        rw [objGet_append_none _ _ _ hp0]
        simp [objGet]
      exact objGet_append_some _ _ _ _ hmid
    · intro k v hk hkp hv
      rw [hform]
      have hmid : objGet (dataArg.getD [] ++ [("partial", LVal.selfPartial)]) k = none := by
        rw [objGet_append_none _ _ _ hk]
        simp [objGet, Ne.symm hkp]
      rw [objGet_append_none _ _ _ hmid]
      have hfil := objGet_filterKey
        (fun s => (objGet (dataArg.getD [] ++ [("partial", LVal.selfPartial)]) s).isNone)
        cfg.aposLocals k (by simp [hmid])
      exact hfil.trans hv
  | some pv =>
    have hform : renderPartialData cfg dataArg
        = dataArg.getD []
          ++ cfg.aposLocals.filter (fun p => (objGet (dataArg.getD []) p.1).isNone) := by
      simp [renderPartialData, udefaults, hp0]
    refine ⟨?_, ?_, ?_, rfl⟩
    · intro k v hv
      rw [hform]
      exact objGet_append_some _ _ _ _ hv
    · intro hp
      exact absurd hp (by simp)
    · intro k v hk hkp hv
      rw [hform, objGet_append_none _ _ _ hk]
      have hfil := objGet_filterKey
        (fun s => (objGet (dataArg.getD []) s).isNone)
        cfg.aposLocals k (by simp [hk])
      exact hfil.trans hv

/-- Witness for C7: an explicit `title` survives the merge with a helper
object that also defines `title`, `data.partial` is set, and an absent
helper key is merged in. -/
theorem partial_data_first_writer_wins_witness :
    objGet (renderPartialData
        ⟨none, "/views", [("title", LVal.js (JVal.str "Default")), ("area", LVal.localFn "aposArea")]⟩
        (some [("title", LVal.js (JVal.str "Hi"))])) "title" = some (LVal.js (JVal.str "Hi")) ∧
    objGet (renderPartialData
        ⟨none, "/views", [("title", LVal.js (JVal.str "Default")), ("area", LVal.localFn "aposArea")]⟩
        (some [("title", LVal.js (JVal.str "Hi"))])) "partial" = some LVal.selfPartial ∧
    objGet (renderPartialData
        ⟨none, "/views", [("title", LVal.js (JVal.str "Default")), ("area", LVal.localFn "aposArea")]⟩
        (some [("title", LVal.js (JVal.str "Hi"))])) "area" = some (LVal.localFn "aposArea") :=
  ⟨(partial_data_first_writer_wins _ _).1 "title" (LVal.js (JVal.str "Hi")) rfl,
    (partial_data_first_writer_wins _ _).2.1 rfl,
    (partial_data_first_writer_wins _ _).2.2.1 "area" (LVal.localFn "aposArea") rfl
      (by decide) rfl⟩

/-- C10: the cache key function is not injective: the one-element list
`['/a:/b']` and the two-element list `['/a','/b']` are distinct, their
colon-joined keys coincide, and after the first list's environment is
created, a request for the second list returns the identical cached
instance with the cache unchanged. -/
theorem env_key_not_injective :
    (["/a:/b"] : List String) ≠ ["/a", "/b"] ∧
    envKey ⟨none, "/views", []⟩ (DirsArg.many ["/a:/b"])
      = envKey ⟨none, "/views", []⟩ (DirsArg.many ["/a", "/b"]) ∧
    (getNunjucksEnv ⟨none, "/views", []⟩
        (getNunjucksEnv ⟨none, "/views", []⟩ ⟨[], 0⟩ (DirsArg.many ["/a:/b"])).2
        (DirsArg.many ["/a", "/b"])).1
      = (getNunjucksEnv ⟨none, "/views", []⟩ ⟨[], 0⟩ (DirsArg.many ["/a:/b"])).1 ∧
    (getNunjucksEnv ⟨none, "/views", []⟩
        (getNunjucksEnv ⟨none, "/views", []⟩ ⟨[], 0⟩ (DirsArg.many ["/a:/b"])).2
        (DirsArg.many ["/a", "/b"])).2
      = (getNunjucksEnv ⟨none, "/views", []⟩ ⟨[], 0⟩ (DirsArg.many ["/a:/b"])).2 :=
  ⟨by decide, by decide, by decide, rfl⟩

end Apos
